import Mathlib

/-
Verification of `.github/scripts/update_readme.py`.

The script parses a JUnit XML report, classifies the success rate, renders a
Markdown block, and splices it into a README between two literal marker
comments.  We embed the three relevant functions:

* `parse_junit_xml` — the XML library is external, so its outcome is embedded
  as an `Option SuiteAttrs` input: `none` stands for every failure mode of the
  Python `try` block (missing file, invalid XML, no `testsuite` element, a
  failing attribute conversion), `some a` for a successfully located first
  `testsuite` element whose integer attributes are those of `a` (`Option`
  fields model `testsuite.get(attr, 0)` defaulting).  Python floats are
  embedded as exact rationals.
* `get_status_info` — a pure function of the success rate.
* `update_readme` — file contents are `List Char`; the file argument is
  `Option (List Char)` (`none` = file absent) and the result pairs the
  returned boolean with the resulting file contents.  `findSub` embeds
  Python's `str.find` (index of the first occurrence, `none` for `-1`);
  the `in` substring test of the script is `(findSub _ _).isSome`.
-/

/-- Attributes of the first `testsuite` element of the report, as read by
`testsuite.get("tests", 0)` etc.; `none` models an absent attribute. -/
structure SuiteAttrs where
  tests : Option Int
  failures : Option Int
  errors : Option Int
  skipped : Option Int
  time : Option ℚ
deriving DecidableEq

/-- The dict returned by `parse_junit_xml` on success. -/
structure TestStats where
  total : Int
  passed : Int
  failed : Int
  errors : Int
  skipped : Int
  time : ℚ
  success_rate : ℚ
deriving DecidableEq

/-- `parse_junit_xml`: on any parsing failure (`none` input) the Python
function returns `None`; otherwise it reads the attributes with default 0,
computes `passed = total - failures - errors - skipped` (not clamped) and
`success_rate = passed / total * 100` if `total > 0` else `0`. -/
def parse_junit_xml : Option SuiteAttrs → Option TestStats
  | none => none
  | some a =>
    let total : Int := a.tests.getD 0
    let failures : Int := a.failures.getD 0
    let errors : Int := a.errors.getD 0
    let skipped : Int := a.skipped.getD 0
    let passed : Int := total - failures - errors - skipped
    let time : ℚ := a.time.getD 0
    let success_rate : ℚ := if 0 < total then (passed : ℚ) / (total : ℚ) * 100 else 0
    some { total := total, passed := passed, failed := failures, errors := errors,
           skipped := skipped, time := time, success_rate := success_rate }

/-- `get_status_info`: status text and badge color from the success rate. -/
def get_status_info (success_rate : ℚ) : String × String :=
  if success_rate = 100 then ("✅ All tests passing", "brightgreen")
  else if 80 ≤ success_rate then ("⚠️ Some tests failing", "yellow")
  else ("❌ Tests failing", "red")

/-- `"<!-- TEST_RESULTS_START -->"`, the start marker of the owned region. -/
def startMarker : List Char := "<!-- TEST_RESULTS_START -->".data

/-- `"<!-- TEST_RESULTS_END -->"`, the end marker of the owned region. -/
def endMarker : List Char := "<!-- TEST_RESULTS_END -->".data

/-- Python's `str.find`: index of the first occurrence of `pat` in the
string, `none` when there is none (`-1` in Python). -/
def findSub (pat : List Char) : List Char → Option Nat
  | [] => if pat <+: ([] : List Char) then some 0 else none
  | c :: s =>
    if pat <+: (c :: s) then some 0
    else (findSub pat s).map (fun n => n + 1)

/-- `update_readme`: given the current file contents (`none` = no file) and
the rendered section, return the reported boolean and the new contents.
Mirrors the script: missing file → `False`; start marker not `in` the
contents → append `"\n\n"` + section, `True`; otherwise find both markers,
and if the end marker is missing → `False` unchanged, else replace
`content[:start_idx]` ++ section ++ `content[end_idx + len(end_marker):]`. -/
def update_readme (file : Option (List Char)) (sec : List Char) :
    Bool × Option (List Char) :=
  match file with
  | none => (false, none)
  | some content =>
    match findSub startMarker content with
    | none => (true, some (content ++ '\n' :: '\n' :: sec))
    | some start_idx =>
      match findSub endMarker content with
      | none => (false, some content)
      | some end_idx =>
        (true, some (content.take start_idx ++ sec ++
          content.drop (end_idx + endMarker.length)))

/-- C7: a missing README yields failure and no write: the file state stays
absent. -/
theorem C7_missing_file (sec : List Char) : update_readme none sec = (false, none) := rfl

/-- C8: `parse_junit_xml` is a total function of the parsing outcome and
returns no stats exactly on the failure outcomes (missing file, invalid XML,
no `testsuite` element, or any other exception during parsing, all embedded
as the `none` input); it never fails on a successfully parsed suite. -/
theorem C8_no_stats_iff_failure (i : Option SuiteAttrs) :
    parse_junit_xml i = none ↔ i = none := by
  cases i with
  | none => simp [parse_junit_xml]
  | some a => simp [parse_junit_xml]

/-- C4: for a successfully parsed first `testsuite` element with integer
attributes `tests`, `failures`, `errors`, `skipped` (defaulting to 0 when
absent), the stats satisfy `passed = T - F - E - S` (not clamped) and
`success_rate = (T - F - E - S) / T * 100` when `T > 0`, else `0`. -/
theorem C4_parse_formula (a : SuiteAttrs) :
    ∃ s, parse_junit_xml (some a) = some s ∧
      s.total = a.tests.getD 0 ∧
      s.passed = a.tests.getD 0 - a.failures.getD 0 - a.errors.getD 0 - a.skipped.getD 0 ∧
      s.success_rate = (if 0 < a.tests.getD 0 then
          ((a.tests.getD 0 - a.failures.getD 0 - a.errors.getD 0 - a.skipped.getD 0 : ℤ) : ℚ)
            / ((a.tests.getD 0 : ℤ) : ℚ) * 100
        else 0) :=
  ⟨_, rfl, rfl, rfl, rfl⟩

/-- C2 (counterexample): a suite reporting `tests="1" failures="2"` parses to
stats whose `success_rate` is `-100`, which is outside `[0, 100]`. -/
theorem C2_counterexample :
    (parse_junit_xml (some ⟨some 1, some 2, some 0, some 0, none⟩)).map
        TestStats.success_rate = some (-100) ∧ ¬ (0 : ℚ) ≤ -100 := by
  constructor
  · simp only [parse_junit_xml, Option.getD_some, Option.map_some']
    norm_num
  · norm_num

/-- C2 (amended): whenever the suite attributes are consistent — `failures`,
`errors`, `skipped` nonnegative and summing to at most `tests` — every stats
record returned by `parse_junit_xml` has `success_rate` in `[0, 100]`. -/
theorem C2_amended_range (a : SuiteAttrs) (s : TestStats)
    (hp : parse_junit_xml (some a) = some s)
    (hf : 0 ≤ a.failures.getD 0) (he : 0 ≤ a.errors.getD 0) (hs : 0 ≤ a.skipped.getD 0)
    (hsum : a.failures.getD 0 + a.errors.getD 0 + a.skipped.getD 0 ≤ a.tests.getD 0) :
    0 ≤ s.success_rate ∧ s.success_rate ≤ 100 := by
  simp only [parse_junit_xml, Option.some.injEq] at hp
  subst hp
  simp only
  by_cases hT : 0 < a.tests.getD 0
  · rw [if_pos hT]
    have hp0 : (0 : ℤ) ≤ a.tests.getD 0 - a.failures.getD 0 - a.errors.getD 0 - a.skipped.getD 0 := by
      omega
    have hpT : a.tests.getD 0 - a.failures.getD 0 - a.errors.getD 0 - a.skipped.getD 0 ≤
        a.tests.getD 0 := by omega
    constructor
    · apply mul_nonneg
      · apply div_nonneg
        · exact_mod_cast hp0
        · exact_mod_cast hT.le
      · norm_num
    · have h1 : ((a.tests.getD 0 - a.failures.getD 0 - a.errors.getD 0 - a.skipped.getD 0 : ℤ) : ℚ)
          / ((a.tests.getD 0 : ℤ) : ℚ) ≤ 1 := by
        rw [div_le_one (by exact_mod_cast hT)]
        exact_mod_cast hpT
      calc ((a.tests.getD 0 - a.failures.getD 0 - a.errors.getD 0 - a.skipped.getD 0 : ℤ) : ℚ)
            / ((a.tests.getD 0 : ℤ) : ℚ) * 100 ≤ 1 * 100 :=
          mul_le_mul_of_nonneg_right h1 (by norm_num)
        _ = 100 := one_mul _
  · rw [if_neg hT]
    norm_num

/-- C2 (amended, witness): a consistent 10-test suite with one failure. -/
theorem C2_amended_range_witness :
    0 ≤ (⟨10, 9, 1, 0, 0, 0, 90⟩ : TestStats).success_rate ∧
      (⟨10, 9, 1, 0, 0, 0, 90⟩ : TestStats).success_rate ≤ 100 :=
  C2_amended_range ⟨some 10, some 1, some 0, some 0, none⟩ ⟨10, 9, 1, 0, 0, 0, 90⟩
    (by simp only [parse_junit_xml, Option.getD_some]; norm_num)
    (by decide) (by decide) (by decide) (by decide)

/-- C3: with the code's exact strings, a rate of 100 classifies as all tests
passing with color `brightgreen`, a rate in `[80, 100)` as some tests failing
with `yellow`, and a rate below 80 as tests failing with `red`; in particular
100 → brightgreen, 80 → yellow, 79.9 → red, 0 → red. -/
theorem C3_classifier (r : ℚ) :
    (r = 100 → get_status_info r = ("✅ All tests passing", "brightgreen")) ∧
    (80 ≤ r → r < 100 → get_status_info r = ("⚠️ Some tests failing", "yellow")) ∧
    (r < 80 → get_status_info r = ("❌ Tests failing", "red")) ∧
    get_status_info 100 = ("✅ All tests passing", "brightgreen") ∧
    get_status_info 80 = ("⚠️ Some tests failing", "yellow") ∧
    get_status_info (799/10) = ("❌ Tests failing", "red") ∧
    get_status_info 0 = ("❌ Tests failing", "red") := by
  refine ⟨?_, ?_, ?_, by decide, by decide,
    by unfold get_status_info; rw [if_neg (by norm_num), if_neg (by norm_num)], by decide⟩
  · intro h
    subst h
    decide
  · intro h1 h2
    unfold get_status_info
    rw [if_neg (ne_of_lt h2), if_pos h1]
  · intro h
    have hne : r ≠ 100 := by
      intro hc
      rw [hc] at h
      norm_num at h
    have hnge : ¬ 80 ≤ r := not_le.mpr h
    unfold get_status_info
    rw [if_neg hne, if_neg hnge]

/-- C3 (witness): rate 90 is classified as some tests failing, yellow. -/
theorem C3_classifier_witness :
    get_status_info 90 = ("⚠️ Some tests failing", "yellow") :=
  (C3_classifier 90).2.1 (by norm_num) (by norm_num)

/-- C10: the classifier is total: a rate above 100 still classifies (as some
tests failing, `yellow`, not `brightgreen`), and a negative rate classifies
as tests failing, `red`. -/
theorem C10_out_of_range (r : ℚ) :
    (100 < r → get_status_info r = ("⚠️ Some tests failing", "yellow")) ∧
    (r < 0 → get_status_info r = ("❌ Tests failing", "red")) := by
  constructor
  · intro h
    unfold get_status_info
    rw [if_neg (ne_of_gt h), if_pos (by linarith)]
  · intro h
    unfold get_status_info
    rw [if_neg (by intro hc; rw [hc] at h; norm_num at h), if_neg (by linarith)]

/-- C10 (witness): rates 150 and -5. -/
theorem C10_out_of_range_witness :
    get_status_info 150 = ("⚠️ Some tests failing", "yellow") ∧
    get_status_info (-5) = ("❌ Tests failing", "red") :=
  ⟨(C10_out_of_range 150).1 (by norm_num), (C10_out_of_range (-5)).2 (by norm_num)⟩

/-! ### First-occurrence machinery for the marker splice -/

/-- `findSub` returns `i` when the pattern occurs at `i` and nowhere earlier. -/
theorem findSub_eq_some_of {pat : List Char} :
    ∀ {s : List Char} {i : Nat}, pat <+: s.drop i →
      (∀ j, j < i → ¬ pat <+: s.drop j) → findSub pat s = some i := by
  intro s
  induction s with
  | nil =>
    intro i hocc hmin
    cases i with
    | zero =>
      rw [List.drop_nil] at hocc
      simp [findSub, hocc]
    | succ n =>
      exfalso
      rw [List.drop_nil] at hocc
      exact hmin 0 (Nat.succ_pos n) (by rw [List.drop_nil]; exact hocc)
  | cons c s ih =>
    intro i hocc hmin
    cases i with
    | zero =>
      rw [List.drop_zero] at hocc
      simp [findSub, hocc]
    | succ n =>
      have h0 : ¬ pat <+: (c :: s) := by
        have := hmin 0 (Nat.succ_pos n)
        rwa [List.drop_zero] at this
      rw [findSub, if_neg h0, ih hocc (fun j hj => hmin (j + 1) (Nat.succ_lt_succ hj))]
      rfl

/-- `findSub` returns nothing when the pattern occurs nowhere. -/
theorem findSub_eq_none_of {pat : List Char} :
    ∀ {s : List Char}, (∀ j, ¬ pat <+: s.drop j) → findSub pat s = none := by
  intro s
  induction s with
  | nil =>
    intro h
    have := h 0
    rw [List.drop_nil] at this
    simp [findSub, this]
  | cons c s ih =>
    intro h
    have h0 : ¬ pat <+: (c :: s) := by
      have := h 0
      rwa [List.drop_zero] at this
    rw [findSub, if_neg h0, ih (fun j => by
      have := h (j + 1)
      exact this)]
    rfl

/-- An occurrence anywhere keeps `findSub` from returning `none`. -/
theorem findSub_ne_none {pat : List Char} :
    ∀ {s : List Char} {i : Nat}, pat <+: s.drop i → findSub pat s ≠ none := by
  intro s
  induction s with
  | nil =>
    intro i hocc
    rw [List.drop_nil] at hocc
    have : pat = [] := List.prefix_nil.mp hocc
    subst this
    simp [findSub]
  | cons c s ih =>
    intro i hocc
    by_cases hp : pat <+: (c :: s)
    · simp [findSub, hp]
    · cases i with
      | zero =>
        rw [List.drop_zero] at hocc
        exact absurd hocc hp
      | succ n =>
        rw [findSub, if_neg hp]
        intro hmap
        rw [Option.map_eq_none'] at hmap
        exact ih hocc hmap

/-- A prefix of `y ++ z` no longer than `y` is a prefix of `y`. -/
theorem prefix_of_append_of_length {x y z : List Char} (h : x <+: y ++ z)
    (hl : x.length ≤ y.length) : x <+: y := by
  have h1 : x = (y ++ z).take x.length := List.prefix_iff_eq_take.mp h
  have h2 : (y ++ z).take x.length = y.take x.length := by
    rw [List.take_append_eq_append_take, Nat.sub_eq_zero_of_le hl, List.take_zero,
      List.append_nil]
  rw [h1, h2]
  exact List.take_prefix _ _

/-- Dropping the first part of a prefix of `y ++ b` leaves a prefix of `b`. -/
theorem prefix_drop_of_prefix_append {x y b : List Char} (h : x <+: y ++ b) :
    x.drop y.length <+: b := by
  obtain ⟨t, ht⟩ := h
  rcases Nat.le_total y.length x.length with hle | hle
  · have h2 := congrArg (List.drop y.length) ht
    rw [List.drop_append_eq_append_drop, Nat.sub_eq_zero_of_le hle, List.drop_zero,
      List.drop_left] at h2
    exact ⟨t, h2⟩
  · rw [List.drop_eq_nil_of_le hle]
    exact List.nil_prefix

/-- An occurrence inside `s.take n` is an occurrence in `s`. -/
theorem prefix_drop_take_lift {pat s : List Char} {n j : Nat}
    (h : pat <+: (s.take n).drop j) : pat <+: s.drop j := by
  refine h.trans ?_
  rw [List.drop_take]
  exact List.take_prefix _ _

/-- An occurrence of `pat` in `a ++ b` at `j ≤ |a|` contributes a suffix of
`pat` as a prefix of `b`. -/
theorem straddle_extract {pat a b : List Char} {j : Nat} (hj : j ≤ a.length)
    (hocc : pat <+: (a ++ b).drop j) : pat.drop (a.length - j) <+: b := by
  rw [List.drop_append_eq_append_drop, Nat.sub_eq_zero_of_le hj, List.drop_zero] at hocc
  have h := prefix_drop_of_prefix_append hocc
  rwa [List.length_drop] at h

/-- First-occurrence computation across a boundary: if `pat` heads `tail`,
occurs nowhere inside `pre`, and no nonempty proper suffix of `pat` heads
`tail`, then its first occurrence in `pre ++ tail` is at `pre.length`. -/
theorem findSub_boundary {pat pre tail : List Char}
    (hhead : pat <+: tail)
    (hin : ∀ j, j + pat.length ≤ pre.length → ¬ pat <+: pre.drop j)
    (hstr : ∀ d, 0 < d → d < pat.length → ¬ pat.drop d <+: tail) :
    findSub pat (pre ++ tail) = some pre.length := by
  apply findSub_eq_some_of
  · rw [List.drop_left]
    exact hhead
  · intro j hj hocc
    rcases Nat.lt_or_ge pre.length (j + pat.length) with hlt | hle
    · have hd := straddle_extract (Nat.le_of_lt hj) hocc
      exact hstr (pre.length - j) (by omega) (by omega) hd
    · have h1 : pat <+: pre.drop j ++ tail := by
        rwa [List.drop_append_eq_append_drop, Nat.sub_eq_zero_of_le (by omega),
          List.drop_zero] at hocc
      have h2 : pat <+: pre.drop j :=
        prefix_of_append_of_length h1 (by rw [List.length_drop]; omega)
      exact hin j hle h2

/-- The start marker has 27 characters. -/
theorem startMarker_length : startMarker.length = 27 := by decide

/-- The end marker has 25 characters. -/
theorem endMarker_length : endMarker.length = 25 := by decide

/-- The start marker is nonempty. -/
theorem startMarker_ne_nil : startMarker ≠ [] := by decide

/-- The end marker is nonempty. -/
theorem endMarker_ne_nil : endMarker ≠ [] := by decide

/-- No nonempty proper suffix of the start marker is one of its prefixes. -/
theorem startMarker_no_border :
    ∀ d, d < startMarker.length → 0 < d →
      startMarker.drop d ≠ startMarker.take (startMarker.length - d) := by
  decide

/-- No nonempty proper suffix of the end marker is one of its prefixes. -/
theorem endMarker_no_border :
    ∀ d, d < endMarker.length → 0 < d →
      endMarker.drop d ≠ endMarker.take (endMarker.length - d) := by
  decide

/-- No nonempty proper suffix of the end marker is a prefix of the start
marker. -/
theorem end_start_no_overlap :
    ∀ d, d < endMarker.length → 0 < d →
      endMarker.drop d ≠ startMarker.take (endMarker.length - d) := by
  decide

/-- The start marker contains no newline. -/
theorem newline_not_mem_start : '\n' ∉ startMarker := by decide

/-- The end marker contains no newline. -/
theorem newline_not_mem_end : '\n' ∉ endMarker := by decide

/-- A prefix of a list that is itself a drop of that list equals the
corresponding take. -/
theorem drop_prefix_self_eq_take {pat : List Char} {d : Nat}
    (h : pat.drop d <+: pat) : pat.drop d = pat.take (pat.length - d) := by
  have h1 := List.prefix_iff_eq_take.mp h
  rwa [List.length_drop] at h1

/-- A nonempty proper suffix of the start marker heads no list that begins
with the start marker. -/
theorem startMarker_drop_not_prefix {d : Nat} (hd0 : 0 < d)
    (hdl : d < startMarker.length) {rest : List Char}
    (h : startMarker.drop d <+: startMarker ++ rest) : False := by
  have h2 : startMarker.drop d <+: startMarker :=
    prefix_of_append_of_length h (by rw [List.length_drop]; omega)
  exact startMarker_no_border d hdl hd0 (drop_prefix_self_eq_take h2)

/-- A nonempty proper suffix of the end marker heads no list that begins
with the end marker. -/
theorem endMarker_drop_not_prefix {d : Nat} (hd0 : 0 < d)
    (hdl : d < endMarker.length) {rest : List Char}
    (h : endMarker.drop d <+: endMarker ++ rest) : False := by
  have h2 : endMarker.drop d <+: endMarker :=
    prefix_of_append_of_length h (by rw [List.length_drop]; omega)
  exact endMarker_no_border d hdl hd0 (drop_prefix_self_eq_take h2)

/-- A nonempty proper suffix of the end marker heads no list that begins
with the start marker. -/
theorem endMarker_drop_not_prefix_start {d : Nat} (hd0 : 0 < d)
    (hdl : d < endMarker.length) {rest : List Char}
    (h : endMarker.drop d <+: startMarker ++ rest) : False := by
  have hlen : (endMarker.drop d).length ≤ startMarker.length := by
    rw [List.length_drop, endMarker_length, startMarker_length]
    omega
  have h2 : endMarker.drop d <+: startMarker := prefix_of_append_of_length h hlen
  have h3 := List.prefix_iff_eq_take.mp h2
  rw [List.length_drop] at h3
  exact end_start_no_overlap d hdl hd0 h3

/-- A nonempty string avoiding `'\n'` does not head a list starting with
`'\n'`. -/
theorem not_prefix_newline_cons {x : List Char} (hx : x ≠ []) (hmem : '\n' ∉ x)
    {l : List Char} (h : x <+: '\n' :: l) : False := by
  cases x with
  | nil => exact hx rfl
  | cons c r =>
    rw [List.cons_prefix_cons] at h
    apply hmem
    rw [← h.1]
    exact List.mem_cons_self c r

/-- A proper suffix of a newline-free string does not head a list starting
with `'\n'`. -/
theorem drop_not_prefix_newline_cons {x : List Char} {d : Nat} (hd : d < x.length)
    (hmem : '\n' ∉ x) {l : List Char} (h : x.drop d <+: '\n' :: l) : False := by
  refine not_prefix_newline_cons ?_ (fun hm => hmem (List.drop_subset d x hm)) h
  intro hnil
  have hlen := congrArg List.length hnil
  rw [List.length_drop] at hlen
  simp only [List.length_nil] at hlen
  omega

/-- With both markers present, `update_readme` reports success and splices:
prefix before the first start marker, section, suffix after the first end
marker. -/
theorem update_splice {content sec : List Char} {si ei : Nat}
    (hso : startMarker <+: content.drop si)
    (hsm : ∀ j, j < si → ¬ startMarker <+: content.drop j)
    (heo : endMarker <+: content.drop ei)
    (hem : ∀ j, j < ei → ¬ endMarker <+: content.drop j) :
    update_readme (some content) sec =
      (true, some (content.take si ++ sec ++ content.drop (ei + endMarker.length))) := by
  have h1 : findSub startMarker content = some si := findSub_eq_some_of hso hsm
  have h2 : findSub endMarker content = some ei := findSub_eq_some_of heo hem
  simp [update_readme, h1, h2]

/-- With no start marker, `update_readme` appends a blank separator and the
section and reports success. -/
theorem update_append {content : List Char} (sec : List Char)
    (h : findSub startMarker content = none) :
    update_readme (some content) sec = (true, some (content ++ '\n' :: '\n' :: sec)) := by
  simp [update_readme, h]

/-- C1 (amended): a README containing the start marker but no end marker is
reported as a failure and left unchanged.  (A README containing only the end
marker instead takes the no-start-marker append path, see the
counterexample.) -/
theorem C1_one_marker_fails (content sec : List Char)
    (hstart : ∃ i, startMarker <+: content.drop i)
    (hend : ∀ j, j ≤ content.length → ¬ endMarker <+: content.drop j) :
    update_readme (some content) sec = (false, some content) := by
  have hnone : findSub endMarker content = none := by
    apply findSub_eq_none_of
    intro j hocc
    by_cases hc : j ≤ content.length
    · exact hend j hc hocc
    · push_neg at hc
      rw [List.drop_eq_nil_of_le (Nat.le_of_lt hc)] at hocc
      exact endMarker_ne_nil (List.prefix_nil.mp hocc)
  obtain ⟨i, hi⟩ := hstart
  cases hfs : findSub startMarker content with
  | none => exact absurd hfs (findSub_ne_none hi)
  | some si => simp [update_readme, hfs, hnone]

/-- C1 (witness): a README that is exactly the start marker. -/
theorem C1_one_marker_fails_witness :
    update_readme (some startMarker) (startMarker ++ '\n' :: endMarker) =
      (false, some startMarker) :=
  C1_one_marker_fails startMarker (startMarker ++ '\n' :: endMarker)
    ⟨0, by decide⟩ (by decide)

/-- C1 (counterexample): a README consisting of the end marker alone contains
exactly one of the two markers, yet `update_readme` reports success and
rewrites the file (it appends, because only the start marker is tested for
membership). -/
theorem C1_counterexample :
    (update_readme (some endMarker) (startMarker ++ '\n' :: endMarker)).1 = true ∧
    (update_readme (some endMarker) (startMarker ++ '\n' :: endMarker)).2 ≠
      some endMarker := by
  decide

/-- C9: a README without the start marker gets the section appended after a
blank separator, success is reported, and the original content is the
untouched prefix of the result. -/
theorem C9_append_no_marker (content sec : List Char)
    (hnostart : ∀ j, j ≤ content.length → ¬ startMarker <+: content.drop j) :
    update_readme (some content) sec = (true, some (content ++ '\n' :: '\n' :: sec)) := by
  apply update_append
  apply findSub_eq_none_of
  intro j hocc
  by_cases hc : j ≤ content.length
  · exact hnostart j hc hocc
  · push_neg at hc
    rw [List.drop_eq_nil_of_le (Nat.le_of_lt hc)] at hocc
    exact startMarker_ne_nil (List.prefix_nil.mp hocc)

/-- C9 (witness): appending to a marker-less README. -/
theorem C9_append_no_marker_witness :
    update_readme (some "# Title".data) (startMarker ++ '\n' :: endMarker) =
      (true, some ("# Title".data ++ '\n' :: '\n' :: (startMarker ++ '\n' :: endMarker))) :=
  C9_append_no_marker "# Title".data (startMarker ++ '\n' :: endMarker) (by decide)

/-- C5: with both markers present (`si`, `ei` the first occurrences of the
start and end markers), `update_readme` reports success and replaces the span
with the section; the content strictly before the start marker and strictly
after the end marker is preserved verbatim, reappearing as the exact prefix
and suffix of the new contents. -/
theorem C5_replace_between_markers (content sec : List Char) (si ei : Nat)
    (hso : startMarker <+: content.drop si)
    (hsm : ∀ j, j < si → ¬ startMarker <+: content.drop j)
    (heo : endMarker <+: content.drop ei)
    (hem : ∀ j, j < ei → ¬ endMarker <+: content.drop j) :
    update_readme (some content) sec =
      (true, some (content.take si ++ sec ++ content.drop (ei + endMarker.length))) ∧
    (content.take si ++ sec ++ content.drop (ei + endMarker.length)).take si =
      content.take si ∧
    (content.take si ++ sec ++ content.drop (ei + endMarker.length)).drop
        (si + sec.length) = content.drop (ei + endMarker.length) := by
  have hsi : si < content.length := by
    by_contra hc
    push_neg at hc
    rw [List.drop_eq_nil_of_le hc] at hso
    exact startMarker_ne_nil (List.prefix_nil.mp hso)
  have htakelen : (content.take si).length = si := by
    rw [List.length_take]
    omega
  refine ⟨update_splice hso hsm heo hem, ?_, ?_⟩
  · rw [List.append_assoc]
    exact List.take_left' htakelen
  · apply List.drop_left'
    rw [List.length_append, htakelen]

/-- C5 (witness): a README that is the start marker followed by the end
marker. -/
theorem C5_replace_between_markers_witness :
    update_readme (some (startMarker ++ endMarker)) (startMarker ++ '\n' :: endMarker) =
      (true, some ((startMarker ++ endMarker).take 0 ++ (startMarker ++ '\n' :: endMarker) ++
        (startMarker ++ endMarker).drop (27 + endMarker.length))) ∧
    ((startMarker ++ endMarker).take 0 ++ (startMarker ++ '\n' :: endMarker) ++
        (startMarker ++ endMarker).drop (27 + endMarker.length)).take 0 =
      (startMarker ++ endMarker).take 0 ∧
    ((startMarker ++ endMarker).take 0 ++ (startMarker ++ '\n' :: endMarker) ++
        (startMarker ++ endMarker).drop (27 + endMarker.length)).drop
        (0 + (startMarker ++ '\n' :: endMarker).length) =
      (startMarker ++ endMarker).drop (27 + endMarker.length) :=
  C5_replace_between_markers (startMarker ++ endMarker) (startMarker ++ '\n' :: endMarker)
    0 27 (by decide) (by decide) (by decide) (by decide)

/-- Splicing into an already-spliced README is the identity when the first
start-marker occurrence `si` is not after the first end-marker occurrence
`ei` and the section carries the start marker as a prefix and the end marker
as its unique trailing end-marker occurrence (at index `ksec`). -/
theorem splice_idem {content sec : List Char} {si ei ksec : Nat}
    (hSsec : startMarker <+: sec)
    (hEsec : sec.drop ksec = endMarker)
    (hEmin : ∀ t, t < ksec → ¬ endMarker <+: sec.drop t)
    (hso : startMarker <+: content.drop si)
    (hsm : ∀ j, j < si → ¬ startMarker <+: content.drop j)
    (heo : endMarker <+: content.drop ei)
    (hem : ∀ j, j < ei → ¬ endMarker <+: content.drop j)
    (horder : si ≤ ei) :
    update_readme (some (content.take si ++ sec ++ content.drop (ei + endMarker.length)))
        sec =
      (true, some (content.take si ++ sec ++ content.drop (ei + endMarker.length))) := by
  have h27 : startMarker.length = 27 := startMarker_length
  have h25 : endMarker.length = 25 := endMarker_length
  have hsi : si < content.length := by
    by_contra hc
    push_neg at hc
    rw [List.drop_eq_nil_of_le hc] at hso
    exact startMarker_ne_nil (List.prefix_nil.mp hso)
  have htakelen : (content.take si).length = si := by
    rw [List.length_take]
    omega
  have hksec_le : ksec ≤ sec.length := by
    by_contra hc
    push_neg at hc
    rw [List.drop_eq_nil_of_le (Nat.le_of_lt hc)] at hEsec
    exact endMarker_ne_nil hEsec.symm
  have hseclen : sec.length = ksec + endMarker.length := by
    have h1 := congrArg List.length hEsec
    rw [List.length_drop] at h1
    omega
  have hklen : (sec.take ksec).length = ksec := by
    rw [List.length_take]
    omega
  obtain ⟨s₂, hs₂⟩ := hSsec
  have hsecdec : sec.take ksec ++ endMarker = sec := by
    conv_rhs => rw [← List.take_append_drop ksec sec, hEsec]
  set D := content.take si ++ sec ++ content.drop (ei + endMarker.length) with hD
  have hfs : findSub startMarker D = some si := by
    have hhead : startMarker <+: sec ++ content.drop (ei + endMarker.length) := by
      rw [← hs₂, List.append_assoc]
      exact List.prefix_append _ _
    have hin : ∀ j, j + startMarker.length ≤ (content.take si).length →
        ¬ startMarker <+: (content.take si).drop j := by
      intro j hj hocc
      refine hsm j ?_ (prefix_drop_take_lift hocc)
      rw [htakelen] at hj
      omega
    have hstr : ∀ d, 0 < d → d < startMarker.length →
        ¬ startMarker.drop d <+: sec ++ content.drop (ei + endMarker.length) := by
      intro d hd0 hdl hpre
      rw [← hs₂, List.append_assoc] at hpre
      exact startMarker_drop_not_prefix hd0 hdl hpre
    have hb := findSub_boundary hhead hin hstr
    rw [htakelen] at hb
    rw [hD, List.append_assoc]
    exact hb
  have hregroup : content.take si ++ sec ++ content.drop (ei + endMarker.length) =
      (content.take si ++ sec.take ksec) ++
        (endMarker ++ content.drop (ei + endMarker.length)) := by
    conv_lhs => rw [← hsecdec]
    simp [List.append_assoc]
  have hfe : findSub endMarker D = some (si + ksec) := by
    have hhead : endMarker <+: endMarker ++ content.drop (ei + endMarker.length) :=
      List.prefix_append _ _
    have hin : ∀ j, j + endMarker.length ≤ (content.take si ++ sec.take ksec).length →
        ¬ endMarker <+: (content.take si ++ sec.take ksec).drop j := by
      intro j hj hocc
      rw [List.length_append, htakelen, hklen] at hj
      rcases Nat.lt_or_ge j si with hcase | hcase
      · rcases Nat.lt_or_ge si (j + endMarker.length) with hstrad | hfit
        · have hd := straddle_extract (a := content.take si) (b := sec.take ksec)
            (by rw [htakelen]; omega) hocc
          rw [htakelen] at hd
          have hd2 : endMarker.drop (si - j) <+: sec := hd.trans (List.take_prefix _ _)
          rw [← hs₂] at hd2
          exact endMarker_drop_not_prefix_start (by omega) (by omega) hd2
        · have hocc2 : endMarker <+: (content.take si).drop j ++ sec.take ksec := by
            rwa [List.drop_append_eq_append_drop, Nat.sub_eq_zero_of_le
              (by rw [htakelen]; omega), List.drop_zero] at hocc
          have hocc3 : endMarker <+: (content.take si).drop j :=
            prefix_of_append_of_length hocc2 (by rw [List.length_drop, htakelen]; omega)
          exact hem j (by omega) (prefix_drop_take_lift hocc3)
      · have hocc2 : endMarker <+: (sec.take ksec).drop (j - si) := by
          rw [List.drop_append_eq_append_drop, htakelen,
            List.drop_eq_nil_of_le (by rw [htakelen]; omega), List.nil_append] at hocc
          exact hocc
        exact hEmin (j - si) (by omega) (prefix_drop_take_lift hocc2)
    have hstr : ∀ d, 0 < d → d < endMarker.length →
        ¬ endMarker.drop d <+: endMarker ++ content.drop (ei + endMarker.length) := by
      intro d hd0 hdl hpre
      exact endMarker_drop_not_prefix hd0 hdl hpre
    have hb := findSub_boundary hhead hin hstr
    rw [List.length_append, htakelen, hklen] at hb
    rw [hD, hregroup]
    exact hb
  have hresult : update_readme (some D) sec =
      (true, some (D.take si ++ sec ++ D.drop (si + ksec + endMarker.length))) := by
    simp [update_readme, hfs, hfe]
  have htake : D.take si = content.take si := by
    rw [hD, List.append_assoc]
    exact List.take_left' htakelen
  have hdrop : D.drop (si + ksec + endMarker.length) = content.drop (ei + endMarker.length) := by
    rw [hD]
    apply List.drop_left'
    rw [List.length_append, htakelen]
    omega
  rw [hresult, htake, hdrop, hD]

/-- Splicing into a README produced by the append path is the identity when
the original content contained neither marker. -/
theorem append_idem {content sec : List Char} {ksec : Nat}
    (hSsec : startMarker <+: sec)
    (hEsec : sec.drop ksec = endMarker)
    (hEmin : ∀ t, t < ksec → ¬ endMarker <+: sec.drop t)
    (hnoS : ∀ j, ¬ startMarker <+: content.drop j)
    (hnoE : ∀ j, ¬ endMarker <+: content.drop j) :
    update_readme (some (content ++ '\n' :: '\n' :: sec)) sec =
      (true, some (content ++ '\n' :: '\n' :: sec)) := by
  have h27 : startMarker.length = 27 := startMarker_length
  have h25 : endMarker.length = 25 := endMarker_length
  have hksec_le : ksec ≤ sec.length := by
    by_contra hc
    push_neg at hc
    rw [List.drop_eq_nil_of_le (Nat.le_of_lt hc)] at hEsec
    exact endMarker_ne_nil hEsec.symm
  have hseclen : sec.length = ksec + endMarker.length := by
    have h1 := congrArg List.length hEsec
    rw [List.length_drop] at h1
    omega
  have hklen : (sec.take ksec).length = ksec := by
    rw [List.length_take]
    omega
  obtain ⟨s₂, hs₂⟩ := hSsec
  have hsecdec : sec.take ksec ++ endMarker = sec := by
    conv_rhs => rw [← List.take_append_drop ksec sec, hEsec]
  set D := content ++ '\n' :: '\n' :: sec with hD
  have hsplit1 : D = (content ++ ['\n', '\n']) ++ sec := by
    rw [hD]
    simp
  have hfs : findSub startMarker D = some (content.length + 2) := by
    have hhead : startMarker <+: sec := ⟨s₂, hs₂⟩
    have hin : ∀ j, j + startMarker.length ≤ (content ++ ['\n', '\n']).length →
        ¬ startMarker <+: (content ++ ['\n', '\n']).drop j := by
      intro j hj hocc
      rw [List.length_append, List.length_cons, List.length_cons, List.length_nil] at hj
      rcases Nat.lt_or_ge content.length (j + startMarker.length) with hstrad | hfit
      · rcases Nat.le_total j content.length with hjle | hjge
        · have hd := straddle_extract hjle hocc
          exact drop_not_prefix_newline_cons (by omega) newline_not_mem_start hd
        · omega
      · have hocc2 : startMarker <+: content.drop j ++ ['\n', '\n'] := by
          rwa [List.drop_append_eq_append_drop, Nat.sub_eq_zero_of_le (by omega),
            List.drop_zero] at hocc
        have hocc3 : startMarker <+: content.drop j :=
          prefix_of_append_of_length hocc2 (by rw [List.length_drop]; omega)
        exact hnoS j hocc3
    have hstr : ∀ d, 0 < d → d < startMarker.length →
        ¬ startMarker.drop d <+: sec := by
      intro d hd0 hdl hpre
      rw [← hs₂] at hpre
      exact startMarker_drop_not_prefix hd0 hdl hpre
    have hb := findSub_boundary hhead hin hstr
    rw [List.length_append, List.length_cons, List.length_cons, List.length_nil] at hb
    rw [hsplit1]
    exact hb
  have hsplit2 : D = (content ++ '\n' :: '\n' :: sec.take ksec) ++ endMarker := by
    rw [hD]
    conv_lhs => rw [← hsecdec]
    simp
  have hfe : findSub endMarker D = some (content.length + 2 + ksec) := by
    have hhead : endMarker <+: endMarker := List.prefix_refl _
    have hin : ∀ j, j + endMarker.length ≤ (content ++ '\n' :: '\n' :: sec.take ksec).length →
        ¬ endMarker <+: (content ++ '\n' :: '\n' :: sec.take ksec).drop j := by
      intro j hj hocc
      rw [List.length_append, List.length_cons, List.length_cons, hklen] at hj
      rcases Nat.le_total j content.length with hjle | hjge
      · rcases Nat.lt_or_ge content.length (j + endMarker.length) with hstrad | hfit
        · have hd := straddle_extract hjle hocc
          exact drop_not_prefix_newline_cons (by omega) newline_not_mem_end hd
        · have hocc2 : endMarker <+: content.drop j ++ ('\n' :: '\n' :: sec.take ksec) := by
            rwa [List.drop_append_eq_append_drop, Nat.sub_eq_zero_of_le hjle,
              List.drop_zero] at hocc
          have hocc3 : endMarker <+: content.drop j :=
            prefix_of_append_of_length hocc2 (by rw [List.length_drop]; omega)
          exact hnoE j hocc3
      · have hocc2 : endMarker <+: ('\n' :: '\n' :: sec.take ksec).drop (j - content.length) := by
          rw [List.drop_append_eq_append_drop, List.drop_eq_nil_of_le hjge,
            List.nil_append] at hocc
          exact hocc
        cases hmc : j - content.length with
        | zero =>
          rw [hmc, List.drop_zero] at hocc2
          exact not_prefix_newline_cons endMarker_ne_nil newline_not_mem_end hocc2
        | succ m1 =>
          cases m1 with
          | zero =>
            rw [hmc, List.drop_succ_cons, List.drop_zero] at hocc2
            exact not_prefix_newline_cons endMarker_ne_nil newline_not_mem_end hocc2
          | succ m2 =>
            rw [hmc, List.drop_succ_cons, List.drop_succ_cons] at hocc2
            exact hEmin m2 (by omega) (prefix_drop_take_lift hocc2)
    have hstr : ∀ d, 0 < d → d < endMarker.length → ¬ endMarker.drop d <+: endMarker := by
      intro d hd0 hdl hpre
      exact endMarker_no_border d hdl hd0 (drop_prefix_self_eq_take hpre)
    have hb := findSub_boundary hhead hin hstr
    rw [List.length_append, List.length_cons, List.length_cons, hklen] at hb
    rw [hsplit2]
    rw [show content.length + (ksec + 1 + 1) = content.length + 2 + ksec by omega] at hb
    exact hb
  have hresult : update_readme (some D) sec =
      (true, some (D.take (content.length + 2) ++ sec ++
        D.drop (content.length + 2 + ksec + endMarker.length))) := by
    simp [update_readme, hfs, hfe]
  have htake : D.take (content.length + 2) = content ++ ['\n', '\n'] := by
    rw [hsplit1]
    apply List.take_left'
    rw [List.length_append, List.length_cons, List.length_cons, List.length_nil]
  have hdrop : D.drop (content.length + 2 + ksec + endMarker.length) = [] := by
    apply List.drop_eq_nil_of_le
    rw [hD, List.length_append, List.length_cons, List.length_cons]
    omega
  rw [hresult, htake, hdrop, hD]
  simp

/-- C6 (amended): splicing is idempotent for a rendered section that starts
with the start marker and whose only end-marker occurrence is its trailing
one (at index `ksec`), provided the README either contains neither marker, or
contains both with its first start-marker occurrence not after its first
end-marker occurrence.  Then one application succeeds producing contents `d`,
and a second application maps `d` back to `d`. -/
theorem C6_idempotent (content sec : List Char) (ksec : Nat)
    (hSsec : startMarker <+: sec)
    (hEsec : sec.drop ksec = endMarker)
    (hEmin : ∀ t, t < ksec → ¬ endMarker <+: sec.drop t)
    (hcase : ((∀ j, ¬ startMarker <+: content.drop j) ∧
        (∀ j, ¬ endMarker <+: content.drop j)) ∨
      (∃ si ei, si ≤ ei ∧ startMarker <+: content.drop si ∧
        (∀ j, j < si → ¬ startMarker <+: content.drop j) ∧
        endMarker <+: content.drop ei ∧
        (∀ j, j < ei → ¬ endMarker <+: content.drop j))) :
    ∃ d, update_readme (some content) sec = (true, some d) ∧
      update_readme (some d) sec = (true, some d) := by
  rcases hcase with ⟨hnoS, hnoE⟩ | ⟨si, ei, horder, hso, hsm, heo, hem⟩
  · exact ⟨content ++ '\n' :: '\n' :: sec,
      update_append sec (findSub_eq_none_of hnoS),
      append_idem hSsec hEsec hEmin hnoS hnoE⟩
  · exact ⟨content.take si ++ sec ++ content.drop (ei + endMarker.length),
      update_splice hso hsm heo hem,
      splice_idem hSsec hEsec hEmin hso hsm heo hem horder⟩

/-- C6 (witness): splicing `startMarker ++ "\n" ++ endMarker` into the README
`startMarker ++ endMarker` twice is the same as splicing once. -/
theorem C6_idempotent_witness :
    ∃ d, update_readme (some (startMarker ++ endMarker))
        (startMarker ++ '\n' :: endMarker) = (true, some d) ∧
      update_readme (some d) (startMarker ++ '\n' :: endMarker) = (true, some d) :=
  C6_idempotent (startMarker ++ endMarker) (startMarker ++ '\n' :: endMarker) 28
    (by decide) (by decide) (by decide)
    (Or.inr ⟨0, 27, by decide, by decide, by decide, by decide, by decide⟩)

/-- C6 (counterexample): in a README whose first end-marker occurrence
precedes its first start-marker occurrence (here `endMarker ++ startMarker ++
endMarker`), applying `update_readme` with the same well-formed section twice
does not yield the state reached after one application: the second splice
duplicates material, so splicing is not idempotent for every README. -/
theorem C6_counterexample :
    (update_readme (some (endMarker ++ startMarker ++ endMarker))
        (startMarker ++ '\n' :: endMarker)).1 = true ∧
    ((update_readme (some (endMarker ++ startMarker ++ endMarker))
          (startMarker ++ '\n' :: endMarker)).2.bind
        (fun d => (update_readme (some d) (startMarker ++ '\n' :: endMarker)).2)) ≠
      (update_readme (some (endMarker ++ startMarker ++ endMarker))
          (startMarker ++ '\n' :: endMarker)).2 := by
  decide
